import Mathlib

/-!
Verification of the Position Risk & Protective-Order Reconciliation Engine
of the ai-auto-trading repository.

The TypeScript sources are shallowly embedded as Lean functions:
  * `calculateHistoricalLossPenalty`, `isSymbolInCooldown`, `getSymbolLossStats`
    from src/services/coinCooldownManager.ts;
  * `detectReversal` from scripts/test-position-market-analysis.ts;
  * the protective-pair creation and replacement flows quoted from
    src/tools/trading/tradeExecution.ts and stopLossManagement.ts;
  * the `syncPriceOrders` reconciliation script;
  * the `fix-duplicate-trades` repair script.

Timestamps are milliseconds since the epoch (`Int`); JS numbers are `Rat`.
JS truthiness on strings/numbers (empty string and 0 are falsy) is modelled
explicitly where the source relies on it.
-/

namespace AutoTrading

/-- One millisecond-count of an hour, as used by `12 * 60 * 60 * 1000` etc. -/
def hourMs : Int := 60 * 60 * 1000

/-- JS truthiness of a possibly-absent string: `undefined`/`null` and `""`
are falsy. -/
def truthyStr : Option String → Bool
  | none => false
  | some s => s ≠ ""

/-- JS truthiness of a possibly-absent number: `undefined`/`null` and `0`
are falsy. -/
def truthyNum : Option Rat → Bool
  | none => false
  | some q => q ≠ 0

/-! ## LossPenaltyScorer: `calculateHistoricalLossPenalty` -/

/-- Argument record of `calculateHistoricalLossPenalty`
(coinCooldownManager.ts). -/
structure LossStats where
  losses24h : Nat
  losses48h : Nat
  avgLossPercent24h : Rat
  hasReversalLoss : Bool
deriving DecidableEq

/-- Embedding of `calculateHistoricalLossPenalty` (coinCooldownManager.ts
lines 237-270): base 20 when there are 24h losses, with the average-loss
tier added inside that branch; +20 for two or more 48h losses; +15 for a
trend-reversal loss. -/
def calculateHistoricalLossPenalty (stats : LossStats) : Rat :=
  let p1 : Rat :=
    if stats.losses24h > 0 then
      20 +
        (if stats.avgLossPercent24h ≥ 20 then 15
         else if stats.avgLossPercent24h ≥ 15 then 10
         else if stats.avgLossPercent24h ≥ 10 then 5
         else 0)
    else 0
  let p2 : Rat := if stats.losses48h ≥ 2 then 20 else 0
  let p3 : Rat := if stats.hasReversalLoss then 15 else 0
  p1 + p2 + p3

/-- The tier bonus determined by `avgLossPercent24h` alone. -/
def avgLossTier (avg : Rat) : Rat :=
  if avg ≥ 20 then 15 else if avg ≥ 15 then 10 else if avg ≥ 10 then 5 else 0

/-- The penalty formula exactly as the claim words it: four independent
components, the tier applied regardless of the other fields. -/
def penaltyClaimFormula (stats : LossStats) : Rat :=
  (if stats.losses24h > 0 then 20 else 0) + avgLossTier stats.avgLossPercent24h
    + (if stats.losses48h ≥ 2 then 20 else 0)
    + (if stats.hasReversalLoss then 15 else 0)

/-! ## ReversalClassifier: `detectReversal` -/

/-- Position side, the TS union `'long' | 'short'`. -/
inductive Side where
  | long
  | short
deriving DecidableEq

/-- Embedding of `detectReversal` (test-position-market-analysis.ts lines
177-201).  `entryState` is `string | undefined`; the falsy check
`if (!entryState) return false` also rejects the empty string. -/
def detectReversal (positionSide : Side) (entryState : Option String)
    (currentState : String) : Bool :=
  match entryState with
  | none => false
  | some entry =>
    if entry = "" then false
    else
      let isLong := positionSide = Side.long
      let wasUptrend := entry.startsWith "uptrend"
      let wasDowntrend := entry.startsWith "downtrend"
      let nowUptrend := currentState.startsWith "uptrend"
      let nowDowntrend := currentState.startsWith "downtrend"
      if isLong ∧ wasUptrend ∧ nowDowntrend then true
      else if ¬isLong ∧ wasDowntrend ∧ nowUptrend then true
      else false

/-! ## CooldownGate: `isSymbolInCooldown` -/

/-- A row of the `position_close_events` table, restricted to the columns
the cooldown manager reads. -/
structure CloseEvent where
  pnl : Rat
  pnlPercent : Rat
  closeReason : String
  createdAt : Int
deriving DecidableEq

/-- The record the code maps each queried row to:
`lossPercent = Math.abs(parseFloat(pnl_percent))`. -/
structure Loss where
  lossPercent : Rat
  closeReason : String
  closedAt : Int
deriving DecidableEq

/-- Row-to-loss mapping from `isSymbolInCooldown`. -/
def toLoss (e : CloseEvent) : Loss :=
  ⟨|e.pnlPercent|, e.closeReason, e.createdAt⟩

/-- Insert into a list kept descending by `key` (stable). -/
def insertKeyDesc {α : Type} (key : α → Int) (a : α) : List α → List α
  | [] => [a]
  | b :: l => if key a ≤ key b then b :: insertKeyDesc key a l else a :: b :: l

/-- Sort a list descending by `key`; models SQL `ORDER BY ... DESC`. -/
def sortKeyDesc {α : Type} (key : α → Int) : List α → List α
  | [] => []
  | a :: l => insertKeyDesc key a (sortKeyDesc key l)

/-- The cooldown query over the event table: losses (`pnl < 0`) whose
`created_at` lies strictly inside the trailing 24-hour window, ordered
most-recent-first (`ORDER BY created_at DESC`). -/
def lossQuery (events : List CloseEvent) (now : Int) : List CloseEvent :=
  sortKeyDesc (fun e => e.createdAt)
    (events.filter (fun e => decide (e.pnl < 0 ∧ now - 24 * hourMs < e.createdAt)))

/-- Result record of `isSymbolInCooldown`.  The Chinese reason string of the
source is abstracted to the index (1-4) of the rule that produced the
verdict: distinct rules return distinct reasons. -/
structure CooldownResult where
  inCooldown : Bool
  rule : Option Nat
  cooldownUntil : Option Int
  remainingHours : Option Rat
deriving DecidableEq

/-- The `{ inCooldown: false }` result. -/
def noCooldown : CooldownResult := ⟨false, none, none, none⟩

/-- `(cooldownUntil.getTime() - now.getTime()) / (1000 * 60 * 60)`. -/
def remainingHoursOf (cu now : Int) : Rat :=
  ((cu - now : Int) : Rat) / ((hourMs : Int) : Rat)

/-- `Math.ceil(remainingHours * 10) / 10`: round up to one decimal. -/
def ceilTenth (q : Rat) : Rat := ((⌈q * 10⌉ : Int) : Rat) / 10

/-- The verdict a firing rule returns. -/
def fireRule (i : Nat) (cu now : Int) : CooldownResult :=
  ⟨true, some i, some cu, some (ceilTenth (remainingHoursOf cu now))⟩

/-- The rule chain of `isSymbolInCooldown` (coinCooldownManager.ts lines
85-152) over the most-recent-first loss list.  Each source rule is a nested
`if (condition) { if (now < cooldownUntil) return ... }` that otherwise
falls through; the two tests are rendered as one conjunction. -/
def evalCooldownRules (losses : List Loss) (now : Int) : CooldownResult :=
  match losses with
  | [] => noCooldown
  | recent :: rest =>
    if recent.lossPercent ≥ 15 ∧ now < recent.closedAt + 12 * hourMs then
      fireRule 1 (recent.closedAt + 12 * hourMs) now
    else if 2 ≤ (recent :: rest).length ∧ now < recent.closedAt + 24 * hourMs then
      fireRule 2 (recent.closedAt + 24 * hourMs) now
    else if 3 ≤ (recent :: rest).length ∧ now < recent.closedAt + 48 * hourMs then
      fireRule 3 (recent.closedAt + 48 * hourMs) now
    else
      match (recent :: rest).find? (fun l => l.closeReason == "trend_reversal") with
      | some rev =>
        if now < rev.closedAt + 6 * hourMs then
          fireRule 4 (rev.closedAt + 6 * hourMs) now
        else noCooldown
      | none => noCooldown

/-- Embedding of `isSymbolInCooldown` on a successfully read event table:
query, map to losses, evaluate the rule chain. -/
def isSymbolInCooldown (events : List CloseEvent) (now : Int) : CooldownResult :=
  evalCooldownRules ((lossQuery events now).map toLoss) now

/-- `isSymbolInCooldown` including the store read: the whole body is wrapped
in `try/catch` and any read error yields `{ inCooldown: false }` (fail-open,
the error is only logged). -/
def isSymbolInCooldownFromStore (read : Except String (List CloseEvent))
    (now : Int) : CooldownResult :=
  match read with
  | Except.error _ => noCooldown
  | Except.ok events => isSymbolInCooldown events now

/-- Spec-side rule table: the absolute cooldown window of each rule, `none`
when the rule's condition does not hold. -/
def ruleWindow (losses : List Loss) : Nat → Option Int
  | 1 => losses.head?.bind (fun r =>
      if r.lossPercent ≥ 15 then some (r.closedAt + 12 * hourMs) else none)
  | 2 => losses.head?.bind (fun r =>
      if 2 ≤ losses.length then some (r.closedAt + 24 * hourMs) else none)
  | 3 => losses.head?.bind (fun r =>
      if 3 ≤ losses.length then some (r.closedAt + 48 * hourMs) else none)
  | 4 => (losses.find? (fun l => l.closeReason == "trend_reversal")).map
      (fun l => l.closedAt + 6 * hourMs)
  | _ => none

/-- The verdict rule `i` contributes: its window, provided the rule's
condition holds and the window has not yet elapsed at `now`. -/
def ruleVerdictIfOpen (losses : List Loss) (now : Int) (i : Nat) :
    Option (Nat × Int) :=
  (ruleWindow losses i).bind (fun cu =>
    if now < cu then some (i, cu) else none)

/-- Spec-side verdict selection, following the spec text: of the rules
`1, 2, 3, 4` in that fixed order, take the first whose condition holds and
whose window is still open; windows are never combined or maximized. -/
def firstOpenRule (losses : List Loss) (now : Int) : Option (Nat × Int) :=
  match ruleVerdictIfOpen losses now 1 with
  | some v => some v
  | none =>
    match ruleVerdictIfOpen losses now 2 with
    | some v => some v
    | none =>
      match ruleVerdictIfOpen losses now 3 with
      | some v => some v
      | none => ruleVerdictIfOpen losses now 4

/-- Spec-side cooldown evaluator built from `firstOpenRule`. -/
def cooldownSpecVerdict (events : List CloseEvent) (now : Int) : CooldownResult :=
  match firstOpenRule ((lossQuery events now).map toLoss) now with
  | some (i, cu) => fireRule i cu now
  | none => noCooldown

/-! ## LossPenaltyScorer: `getSymbolLossStats` -/

/-- Result record of `getSymbolLossStats`. -/
structure FullLossStats where
  losses24h : Nat
  losses48h : Nat
  totalLoss24h : Rat
  totalLoss48h : Rat
  avgLossPercent24h : Rat
  hasReversalLoss : Bool
deriving DecidableEq

/-- The all-zero/false struct returned on read failure. -/
def zeroLossStats : FullLossStats := ⟨0, 0, 0, 0, 0, false⟩

/-- The loss query of `getSymbolLossStats` for a trailing window of
`hours` hours (no ordering clause). -/
def statsQuery (events : List CloseEvent) (now : Int) (hours : Int) :
    List CloseEvent :=
  events.filter (fun e => decide (e.pnl < 0 ∧ now - hours * hourMs < e.createdAt))

/-- The aggregation of `getSymbolLossStats` (coinCooldownManager.ts lines
192-220) over the two row sets. -/
def computeLossStats (l24 l48 : List CloseEvent) : FullLossStats :=
  { losses24h := l24.length
    losses48h := l48.length
    totalLoss24h := (l24.map (fun e => e.pnl)).sum
    totalLoss48h := (l48.map (fun e => e.pnl)).sum
    avgLossPercent24h :=
      if 0 < l24.length then
        (l24.map (fun e => |e.pnlPercent|)).sum / (l24.length : Rat)
      else 0
    hasReversalLoss := l24.any (fun e => e.closeReason == "trend_reversal") }

/-- `getSymbolLossStats` including the store reads: both queries sit inside
one `try/catch`, so a failure of either read yields the all-zero struct
(fail-open, the error is only logged). -/
def getSymbolLossStats (read24 read48 : Except String (List CloseEvent)) :
    FullLossStats :=
  match read24, read48 with
  | Except.ok l24, Except.ok l48 => computeLossStats l24 l48
  | _, _ => zeroLossStats

/-! ## ConditionalOrderLedger: the `price_orders` table -/

/-- `type` column of `price_orders`. -/
inductive LegType where
  | stop_loss
  | take_profit
deriving DecidableEq

/-- `status` column of `price_orders`. -/
inductive OrderStatus where
  | active
  | triggered
  | cancelled
deriving DecidableEq

/-- A row of the `price_orders` table (src/database/schema.ts). -/
structure PriceOrder where
  order_id : String
  position_order_id : Option String
  symbol : String
  side : String
  type : LegType
  trigger_price : Rat
  order_price : Rat
  quantity : Rat
  status : OrderStatus
  created_at : Int
  updated_at : Option Int
deriving DecidableEq

/-- Insert one protective leg if its venue order id is truthy
(`if (slOrderId) { INSERT ... }` in tradeExecution.ts). -/
def insertLegIf (oid : Option String) (row : String → PriceOrder)
    (db : List PriceOrder) : List PriceOrder :=
  match oid with
  | some s => if s = "" then db else db ++ [row s]
  | none => db

/-- Embedding of the protective-pair creation of tradeExecution.ts: after the
venue placements, insert an `active` row per successfully placed leg, both
carrying `position_order_id = positionOrderId` (which the caller computed as
`order.id?.toString() || ""`). -/
def createProtectivePair (positionOrderId : String) (symbol : String)
    (side : String) (slOrderId tpOrderId : Option String)
    (actualStopLoss actualTakeProfit finalQuantity : Rat) (now : Int)
    (db : List PriceOrder) : List PriceOrder :=
  let db1 := insertLegIf slOrderId (fun oid =>
    ⟨oid, some positionOrderId, symbol, side, LegType.stop_loss, actualStopLoss,
      0, finalQuantity, OrderStatus.active, now, none⟩) db
  insertLegIf tpOrderId (fun oid =>
    ⟨oid, some positionOrderId, symbol, side, LegType.take_profit,
      actualTakeProfit, 0, finalQuantity, OrderStatus.active, now, none⟩) db1

/-- Step 0 of the replacement flow (stopLossManagement.ts): recover the
`position_order_id` from any active conditional order of the symbol
(`SELECT ... WHERE symbol = ? AND status = 'active' AND position_order_id IS
NOT NULL LIMIT 1`), then a JS truthiness test on the fetched value (an empty
string is discarded). -/
def recoverPositionOrderId (symbol : String) (db : List PriceOrder) :
    Option String :=
  match db.find? (fun r => decide (r.symbol = symbol ∧
      r.status = OrderStatus.active ∧ r.position_order_id ≠ none)) with
  | some r =>
    match r.position_order_id with
    | some v => if v = "" then none else some v
    | none => none
  | none => none

/-- Step 1 of the replacement flow: `UPDATE price_orders SET status =
'cancelled', updated_at = ? WHERE symbol = ? AND status = 'active'`. -/
def cancelActive (symbol : String) (now : Int) (db : List PriceOrder) :
    List PriceOrder :=
  db.map (fun r =>
    if r.symbol = symbol ∧ r.status = OrderStatus.active then
      { r with status := OrderStatus.cancelled, updated_at := some now }
    else r)

/-- One invocation of the stop-adjustment flow: the venue order ids it got
back, the requested prices, the venue position size and the wall-clock
instant. -/
structure ReplaceCall where
  stopLossOrderId : Option String
  takeProfitOrderId : Option String
  stopLoss : Option Rat
  takeProfit : Option Rat
  size : Rat
  now : Int
deriving DecidableEq

/-- Embedding of steps 0-2 of stopLossManagement.ts: recover the position
order id, cancel every active row of the symbol, then insert each new leg
guarded by `if (result.xxxOrderId && price)` (JS truthiness on both), the new
rows inheriting the recovered `position_order_id`. -/
def replaceProtectivePair (symbol : String) (c : ReplaceCall)
    (db : List PriceOrder) : List PriceOrder :=
  let pid := recoverPositionOrderId symbol db
  let sideStr : String := if 0 < c.size then "long" else "short"
  let db1 := cancelActive symbol c.now db
  let db2 :=
    match c.stopLossOrderId, c.stopLoss with
    | some oid, some sl =>
      if oid = "" ∨ sl = 0 then db1
      else db1 ++ [⟨oid, pid, symbol, sideStr, LegType.stop_loss, sl, 0,
        |c.size|, OrderStatus.active, c.now, none⟩]
    | _, _ => db1
  match c.takeProfitOrderId, c.takeProfit with
  | some oid, some tp =>
    if oid = "" ∨ tp = 0 then db2
    else db2 ++ [⟨oid, pid, symbol, sideStr, LegType.take_profit, tp, 0,
      |c.size|, OrderStatus.active, c.now, none⟩]
  | _, _ => db2

/-- A serialized chain of replacements for one symbol. -/
def runReplaceChain (symbol : String) (calls : List ReplaceCall)
    (db : List PriceOrder) : List PriceOrder :=
  calls.foldl (fun acc c => replaceProtectivePair symbol c acc) db

/-- Both venue placements of a replacement succeeded with usable prices. -/
def bothLegsSucceed (c : ReplaceCall) : Prop :=
  truthyStr c.stopLossOrderId = true ∧ truthyNum c.stopLoss = true ∧
    truthyStr c.takeProfitOrderId = true ∧ truthyNum c.takeProfit = true

/-- Number of active rows of a given leg type for a symbol. -/
def activeCount (db : List PriceOrder) (s : String) (t : LegType) : Nat :=
  db.countP (fun r => decide (r.symbol = s ∧ r.status = OrderStatus.active ∧
    r.type = t))

/-- The ledger invariant of one protected position: exactly one active row
per leg type, every row of the symbol keyed by the entry order id, and every
retired row cancelled with `updated_at` stamped. -/
def PairInvariant (s : String) (pid : String) (db : List PriceOrder) : Prop :=
  activeCount db s LegType.stop_loss = 1 ∧
  activeCount db s LegType.take_profit = 1 ∧
  (∀ r ∈ db, r.symbol = s → r.position_order_id = some pid) ∧
  (∀ r ∈ db, r.symbol = s → r.status ≠ OrderStatus.active →
    r.status = OrderStatus.cancelled ∧ r.updated_at ≠ none)

/-! ## Reconciliation: the `syncPriceOrders` script -/

/-- A row of the `positions` table.  The script's query selects only
`symbol, side, quantity, stop_loss, profit_target, sl_order_id, tp_order_id`;
`entry_order_id` exists in the table but is not selected. -/
structure PositionRow where
  symbol : String
  side : String
  quantity : Rat
  stop_loss : Option Rat
  profit_target : Option Rat
  sl_order_id : Option String
  tp_order_id : Option String
  entry_order_id : Option String
deriving DecidableEq

/-- Venue-reported order detail. -/
structure VenueOrder where
  status : String
deriving DecidableEq

/-- `open → active`, `finished → triggered`, anything else `→ cancelled`. -/
def venueStatusToLedger (s : String) : OrderStatus :=
  if s = "open" then OrderStatus.active
  else if s = "finished" then OrderStatus.triggered
  else OrderStatus.cancelled

/-- `const positionOrderId = position.entry_order_id || null` in
syncPriceOrders: the SELECT list does not include `entry_order_id`, so the
property access yields `undefined` and the value is always `null`. -/
def syncedPositionOrderId (_p : PositionRow) : Option String := none

/-- The existence probe is `SELECT id FROM price_orders WHERE order_id = ?`:
only `id` is selected, so `existingOrder.position_order_id` is `undefined`
(modelled `none`) whatever the stored column holds. -/
def probedPositionOrderId (_db : List PriceOrder) (_oid : String) :
    Option String := none

/-- Reconciliation of one protective leg of one position
(sync-price-orders script): guard `if (position.xx_order_id &&
position.price)` (JS truthiness), existence check by `order_id`, venue
lookup with per-order failure isolation (`none` models a thrown lookup
error, which is caught and skipped), insert with the mapped status, or the
backfill `UPDATE` behind the guard
`!existingOrder.position_order_id && positionOrderId`. -/
def syncLeg (venue : String → Option VenueOrder) (now : Int) (p : PositionRow)
    (legId : Option String) (price : Option Rat) (t : LegType)
    (db : List PriceOrder) : List PriceOrder :=
  match legId, price with
  | some oid, some pr =>
    if oid = "" ∨ pr = 0 then db
    else if db.any (fun r => r.order_id == oid) then
      if probedPositionOrderId db oid = none ∧
          truthyStr (syncedPositionOrderId p) = true then
        db.map (fun r => if r.order_id == oid then
          { r with position_order_id := syncedPositionOrderId p } else r)
      else db
    else
      match venue oid with
      | some od => db ++ [⟨oid, syncedPositionOrderId p, p.symbol, p.side, t,
          pr, 0, p.quantity, venueStatusToLedger od.status, now, none⟩]
      | none => db
  | _, _ => db

/-- Reconciliation of one position: stop-loss leg then take-profit leg. -/
def syncPosition (venue : String → Option VenueOrder) (now : Int)
    (db : List PriceOrder) (p : PositionRow) : List PriceOrder :=
  syncLeg venue now p p.tp_order_id p.profit_target LegType.take_profit
    (syncLeg venue now p p.sl_order_id p.stop_loss LegType.stop_loss db)

/-- Embedding of the main loop of the `syncPriceOrders` script. -/
def syncPriceOrders (venue : String → Option VenueOrder) (now : Int)
    (positions : List PositionRow) (db : List PriceOrder) : List PriceOrder :=
  positions.foldl (syncPosition venue now) db

/-! ## Duplicate repair: the `fix-duplicate-trades` script -/

/-- A row of the `trades` table, restricted to the columns the repair script
touches.  `id` is the integer primary key. -/
structure TradeRow where
  id : Nat
  order_id : String
  type : String
  timestamp : Int
deriving DecidableEq

/-- A row of `position_close_events`, restricted to the columns the repair
script touches. -/
structure CloseEventRow where
  id : Nat
  trigger_order_id : Option String
  created_at : Int
deriving DecidableEq

/-- Insert into a list kept ascending by `key` (stable). -/
def insertKeyAsc {α : Type} (key : α → Int) (a : α) : List α → List α
  | [] => [a]
  | b :: l => if key b ≤ key a then b :: insertKeyAsc key a l else a :: b :: l

/-- Sort a list ascending by `key`; models SQL `ORDER BY ... ASC`. -/
def sortKeyAsc {α : Type} (key : α → Int) : List α → List α
  | [] => []
  | a :: l => insertKeyAsc key a (sortKeyAsc key l)

/-- One pass of the repair loop for one duplicated key: fetch the group
(`inGroup`), order it ascending by `tkey`, keep the first record and delete
every other one by primary key (`rid`); groups of at most one record are
skipped.  Shared by the `trades` and `position_close_events` passes. -/
def deleteDupGroup {α : Type} (rid : α → Nat) (tkey : α → Int)
    (inGroup : α → Bool) (rows : List α) : List α :=
  match sortKeyAsc tkey (rows.filter inGroup) with
  | [] => rows
  | [_] => rows
  | _ :: rest => rows.filter (fun r => decide (rid r ∉ rest.map rid))

/-- The duplicate groups of the `trades` pass: `SELECT order_id ... WHERE
type = 'close' GROUP BY order_id HAVING count > 1`. -/
def closeDupOrderIds (ts : List TradeRow) : List String :=
  ((ts.filter (fun r => r.type == "close")).map (fun r => r.order_id)).dedup.filter
    (fun x => decide
      (1 < ts.countP (fun r => r.type == "close" && r.order_id == x)))

/-- The `trades` pass of the repair script: for each duplicated close-order
id, keep the earliest record with that `order_id` (the per-group fetch has no
`type` filter) and delete the rest. -/
def fixDuplicateTrades (ts : List TradeRow) : List TradeRow :=
  (closeDupOrderIds ts).foldl
    (fun acc x => deleteDupGroup (fun r => r.id) (fun r => r.timestamp)
      (fun r => r.order_id == x) acc) ts

/-- The duplicate groups of the `position_close_events` pass: `SELECT
trigger_order_id ... WHERE trigger_order_id IS NOT NULL GROUP BY
trigger_order_id HAVING count > 1`. -/
def dupTriggerOrderIds (evs : List CloseEventRow) : List String :=
  ((evs.filterMap (fun r => r.trigger_order_id)).dedup).filter
    (fun x => decide
      (1 < evs.countP (fun r => r.trigger_order_id == some x)))

/-- The `position_close_events` pass of the repair script. -/
def fixDuplicateCloseEvents (evs : List CloseEventRow) : List CloseEventRow :=
  (dupTriggerOrderIds evs).foldl
    (fun acc x => deleteDupGroup (fun r => r.id) (fun r => r.created_at)
      (fun r => r.trigger_order_id == some x) acc) evs

/-- The two tables the repair script touches. -/
structure RepairState where
  trades : List TradeRow
  closeEvents : List CloseEventRow
deriving DecidableEq

/-- Embedding of `main` of the fix-duplicate-trades script.  When the
`trades` duplicate query returns no rows the script logs and calls
`process.exit(0)` before ever looking at `position_close_events`; otherwise
it runs both passes. -/
def repairDuplicates (st : RepairState) : RepairState :=
  if closeDupOrderIds st.trades = [] then st
  else ⟨fixDuplicateTrades st.trades, fixDuplicateCloseEvents st.closeEvents⟩

/-! ## Theorems -/

/-- The same penalty computation with an explicitly natural-number value,
used to prove integrality. -/
def natPenalty (stats : LossStats) : Nat :=
  (if 0 < stats.losses24h then
    20 + (if stats.avgLossPercent24h ≥ 20 then 15
      else if stats.avgLossPercent24h ≥ 15 then 10
      else if stats.avgLossPercent24h ≥ 10 then 5
      else 0)
  else 0) +
  (if 2 ≤ stats.losses48h then 20 else 0) +
  (if stats.hasReversalLoss then 15 else 0)

theorem penalty_eq_natPenalty (stats : LossStats) :
    calculateHistoricalLossPenalty stats = (natPenalty stats : Rat) := by
  unfold calculateHistoricalLossPenalty natPenalty
  dsimp only
  split_ifs <;> push_cast <;> norm_num

theorem avgLossTier_mono {a b : Rat} (h : a ≤ b) :
    avgLossTier a ≤ avgLossTier b := by
  unfold avgLossTier
  split_ifs <;> linarith

/-- Claim C3 counterexample: with no 24-hour loss the code adds no tier bonus at
all, while the claim's formula (tier applied regardless of the other
fields) yields 15. -/
theorem calculateHistoricalLossPenalty_counterexample :
    calculateHistoricalLossPenalty ⟨0, 0, 22, false⟩ = 0 ∧
    penaltyClaimFormula ⟨0, 0, 22, false⟩ = 15 ∧
    calculateHistoricalLossPenalty ⟨0, 0, 22, false⟩ ≠
      penaltyClaimFormula ⟨0, 0, 22, false⟩ := by
  refine ⟨by norm_num [calculateHistoricalLossPenalty],
    by norm_num [penaltyClaimFormula, avgLossTier], ?_⟩
  norm_num [calculateHistoricalLossPenalty, penaltyClaimFormula, avgLossTier]

/-- Claim C3 amended: the tier bonus applies only when `losses24h > 0`; the other
two components are independent; the concrete scenario yields 50; the result
is always a non-negative integer. -/
theorem calculateHistoricalLossPenalty_characterization :
    (∀ stats : LossStats,
      calculateHistoricalLossPenalty stats =
        (if 0 < stats.losses24h then 20 + avgLossTier stats.avgLossPercent24h
          else 0) +
        (if 2 ≤ stats.losses48h then 20 else 0) +
        (if stats.hasReversalLoss then 15 else 0) ∧
      0 ≤ calculateHistoricalLossPenalty stats ∧
      ∃ n : Nat, calculateHistoricalLossPenalty stats = (n : Rat)) ∧
    calculateHistoricalLossPenalty ⟨1, 1, 22, true⟩ = 50 := by
  constructor
  · intro stats
    refine ⟨rfl, ?_, ⟨natPenalty stats, penalty_eq_natPenalty stats⟩⟩
    rw [penalty_eq_natPenalty]
    exact Nat.cast_nonneg _
  · norm_num [calculateHistoricalLossPenalty, avgLossTier]

/-- Claim C9: `calculateHistoricalLossPenalty` is deterministic and monotone
non-decreasing in `avgLossPercent24h` with every other field fixed. -/
theorem penalty_deterministic_and_monotone :
    (∀ s t : LossStats, s = t →
      calculateHistoricalLossPenalty s = calculateHistoricalLossPenalty t) ∧
    ∀ (l24 l48 : Nat) (rev : Bool) (a b : Rat), a ≤ b →
      calculateHistoricalLossPenalty ⟨l24, l48, a, rev⟩ ≤
        calculateHistoricalLossPenalty ⟨l24, l48, b, rev⟩ := by
  constructor
  · intro s t h
    rw [h]
  · intro l24 l48 rev a b hab
    unfold calculateHistoricalLossPenalty
    have := avgLossTier_mono hab
    dsimp only
    split_ifs <;> simp [avgLossTier] at this ⊢ <;> linarith

/-- Claim C9 witness at concrete inputs. -/
theorem penalty_monotone_example :
    calculateHistoricalLossPenalty ⟨1, 0, 12, false⟩ =
      calculateHistoricalLossPenalty ⟨1, 0, 12, false⟩ ∧
    calculateHistoricalLossPenalty ⟨1, 0, 12, false⟩ ≤
      calculateHistoricalLossPenalty ⟨1, 0, 18, false⟩ :=
  ⟨penalty_deterministic_and_monotone.1 _ _ rfl,
    penalty_deterministic_and_monotone.2 1 0 false 12 18 (by norm_num)⟩

/-- Claim C6: `detectReversal` is true iff the entry state is known and the
directional prefixes flipped against the position side; an unknown entry
state always yields false. -/
theorem detectReversal_iff :
    (∀ (side : Side) (cur : String), detectReversal side none cur = false) ∧
    ∀ (side : Side) (entry : Option String) (cur : String),
      detectReversal side entry cur = true ↔
        ∃ s, entry = some s ∧
          ((side = Side.long ∧ s.startsWith "uptrend" = true ∧
              cur.startsWith "downtrend" = true) ∨
           (side = Side.short ∧ s.startsWith "downtrend" = true ∧
              cur.startsWith "uptrend" = true)) := by
  constructor
  · intro side cur
    rfl
  · intro side entry cur
    cases entry with
    | none => simp [detectReversal]
    | some s =>
      by_cases hs : s = ""
      · subst hs
        have h1 : "".startsWith "uptrend" = false := by decide
        have h2 : "".startsWith "downtrend" = false := by decide
        simp [detectReversal, h1, h2]
      · cases side <;> simp [detectReversal, hs]

/-- Claim C5: a failed event-store read is caught: the cooldown check reports
not-in-cooldown and the stats aggregation the all-zero struct, whatever the
other read returns. -/
theorem cooldown_reads_fail_open :
    ∀ (msg : String) (now : Int) (r : Except String (List CloseEvent)),
      isSymbolInCooldownFromStore (Except.error msg) now = noCooldown ∧
      getSymbolLossStats (Except.error msg) r = zeroLossStats ∧
      getSymbolLossStats r (Except.error msg) = zeroLossStats := by
  intro msg now r
  refine ⟨rfl, ?_, ?_⟩ <;> cases r <;> rfl

/-- Claim C4: when the 24h loss query returns exactly one event with
`|pnlPercent| ≥ 15`, the verdict is rule 1 with window `closedAt + 12h`
while `now` is inside it, and not-in-cooldown afterwards. -/
theorem single_severe_loss_rule (events : List CloseEvent) (now : Int)
    (e : CloseEvent) (hq : lossQuery events now = [e])
    (hp : 15 ≤ |e.pnlPercent|) :
    (now < e.createdAt + 12 * hourMs →
      isSymbolInCooldown events now =
        fireRule 1 (e.createdAt + 12 * hourMs) now) ∧
    (e.createdAt + 12 * hourMs ≤ now →
      isSymbolInCooldown events now = noCooldown) := by
  unfold isSymbolInCooldown
  rw [hq]
  constructor
  · intro hw
    simp [evalCooldownRules, toLoss, hp, hw]
  · intro hw
    have hmpos : (0 : Int) < hourMs := by norm_num [hourMs]
    have h12 : ¬ now < e.createdAt + 12 * hourMs := not_lt.mpr hw
    have h6 : ¬ now < e.createdAt + 6 * hourMs := by
      intro h
      linarith
    by_cases hr : e.closeReason = "trend_reversal"
    · simp [evalCooldownRules, toLoss, h12, hr, h6, noCooldown]
    · simp [evalCooldownRules, toLoss, h12, hr, noCooldown]

/-- Claim C4 witness: a single -18% stop-loss closed two hours before `now` is in
cooldown with `cooldownUntil = closedAt + 12h = now + 10h` and exactly 10.0
remaining hours. -/
theorem single_severe_loss_example :
    lossQuery [⟨-9, -18, "stop_loss", 0⟩] 7200000 =
      [⟨-9, -18, "stop_loss", 0⟩] ∧
    (15 : Rat) ≤ |(-18 : Rat)| ∧
    isSymbolInCooldown [⟨-9, -18, "stop_loss", 0⟩] 7200000 =
      ⟨true, some 1, some 43200000, some 10⟩ := by
  refine ⟨by decide, by norm_num, ?_⟩
  have h := (single_severe_loss_rule [⟨-9, -18, "stop_loss", 0⟩] 7200000
    ⟨-9, -18, "stop_loss", 0⟩ (by decide) (by norm_num)).1
    (by norm_num [hourMs])
  rw [h]
  norm_num [fireRule, ceilTenth, remainingHoursOf, hourMs]

theorem ruleVerdictIfOpen_one (recent : Loss) (rest : List Loss) (now : Int) :
    ruleVerdictIfOpen (recent :: rest) now 1 =
      if recent.lossPercent ≥ 15 ∧ now < recent.closedAt + 12 * hourMs then
        some (1, recent.closedAt + 12 * hourMs)
      else none := by
  simp only [ruleVerdictIfOpen, ruleWindow, List.head?_cons, Option.some_bind]
  by_cases hA : recent.lossPercent ≥ 15 <;>
    by_cases hB : now < recent.closedAt + 12 * hourMs <;>
      simp [hA, hB]

theorem ruleVerdictIfOpen_two (recent : Loss) (rest : List Loss) (now : Int) :
    ruleVerdictIfOpen (recent :: rest) now 2 =
      if 2 ≤ (recent :: rest).length ∧
          now < recent.closedAt + 24 * hourMs then
        some (2, recent.closedAt + 24 * hourMs)
      else none := by
  simp only [ruleVerdictIfOpen, ruleWindow, List.head?_cons, Option.some_bind]
  by_cases hC : 2 ≤ (recent :: rest).length
  · have hC2 : 1 ≤ rest.length := by simpa using hC
    by_cases hD : now < recent.closedAt + 24 * hourMs <;> simp [hC, hC2, hD]
  · have hC2 : ¬ 1 ≤ rest.length := by simpa using hC
    simp [hC, hC2]

theorem ruleVerdictIfOpen_three (recent : Loss) (rest : List Loss)
    (now : Int) :
    ruleVerdictIfOpen (recent :: rest) now 3 =
      if 3 ≤ (recent :: rest).length ∧
          now < recent.closedAt + 48 * hourMs then
        some (3, recent.closedAt + 48 * hourMs)
      else none := by
  simp only [ruleVerdictIfOpen, ruleWindow, List.head?_cons, Option.some_bind]
  by_cases hE : 3 ≤ (recent :: rest).length
  · have hE2 : 2 ≤ rest.length := by simpa using hE
    by_cases hF : now < recent.closedAt + 48 * hourMs <;> simp [hE, hE2, hF]
  · have hE2 : ¬ 2 ≤ rest.length := by simpa using hE
    simp [hE, hE2]

theorem ruleVerdictIfOpen_four (losses : List Loss) (now : Int) :
    ruleVerdictIfOpen losses now 4 =
      match losses.find? (fun l => l.closeReason == "trend_reversal") with
      | some rev =>
        if now < rev.closedAt + 6 * hourMs then
          some (4, rev.closedAt + 6 * hourMs)
        else none
      | none => none := by
  simp only [ruleVerdictIfOpen, ruleWindow]
  cases hf : losses.find? (fun l => l.closeReason == "trend_reversal") <;>
    simp [hf]

theorem evalCooldownRules_eq_firstOpen (losses : List Loss) (now : Int) :
    evalCooldownRules losses now =
      match firstOpenRule losses now with
      | some (i, cu) => fireRule i cu now
      | none => noCooldown := by
  cases losses with
  | nil => rfl
  | cons recent rest =>
    simp only [evalCooldownRules, firstOpenRule, ruleVerdictIfOpen_one,
      ruleVerdictIfOpen_two, ruleVerdictIfOpen_three, ruleVerdictIfOpen_four]
    split_ifs <;>
      first
        | rfl
        | (cases hf : (recent :: rest).find?
              (fun l => l.closeReason == "trend_reversal") with
           | none => rfl
           | some rev =>
             by_cases h4 : now < rev.closedAt + 6 * hourMs <;> simp [h4])

/-- Claim C2: the cooldown check is exactly the first-open-rule selection of the
spec: rules 1-4 in fixed order, first one whose condition holds and whose
window is still open wins; no combination of windows; not-in-cooldown when
none is open. -/
theorem isSymbolInCooldown_first_rule_wins (events : List CloseEvent)
    (now : Int) :
    isSymbolInCooldown events now = cooldownSpecVerdict events now := by
  unfold isSymbolInCooldown cooldownSpecVerdict
  exact evalCooldownRules_eq_firstOpen _ _

theorem syncLeg_append (venue : String → Option VenueOrder) (now : Int)
    (p : PositionRow) (legId : Option String) (price : Option Rat)
    (t : LegType) (db : List PriceOrder) :
    ∃ extra, syncLeg venue now p legId price t db = db ++ extra := by
  cases legId with
  | none => exact ⟨[], by simp [syncLeg]⟩
  | some oid =>
    cases price with
    | none => exact ⟨[], by simp [syncLeg]⟩
    | some pr =>
      by_cases h0 : oid = "" ∨ pr = 0
      · exact ⟨[], by simp [syncLeg, h0]⟩
      · by_cases hex : db.any (fun r => r.order_id == oid)
        · exact ⟨[], by
            simp [syncLeg, h0, hex, truthyStr, syncedPositionOrderId]⟩
        · cases hv : venue oid with
          | some od =>
            exact ⟨[⟨oid, syncedPositionOrderId p, p.symbol, p.side, t, pr, 0,
              p.quantity, venueStatusToLedger od.status, now, none⟩], by
              simp [syncLeg, h0, hex, hv]⟩
          | none => exact ⟨[], by simp [syncLeg, h0, hex, hv]⟩

theorem syncPosition_append (venue : String → Option VenueOrder) (now : Int)
    (p : PositionRow) (db : List PriceOrder) :
    ∃ extra, syncPosition venue now db p = db ++ extra := by
  obtain ⟨e1, h1⟩ := syncLeg_append venue now p p.sl_order_id p.stop_loss
    LegType.stop_loss db
  obtain ⟨e2, h2⟩ := syncLeg_append venue now p p.tp_order_id p.profit_target
    LegType.take_profit (db ++ e1)
  exact ⟨e1 ++ e2, by
    unfold syncPosition
    rw [h1, h2, List.append_assoc]⟩

/-- Claim C10: reconciliation only ever appends rows: every pre-existing ledger row
survives unchanged in place.  In particular no field of an existing row
(status, trigger price, quantity, timestamps) is modified, and a stored
`position_order_id` is never overwritten: the backfill `UPDATE` is
unreachable because the positions query never selects `entry_order_id`, so
the recovered id is always null and the guard
`!existingOrder.position_order_id && positionOrderId` is false. -/
theorem syncPriceOrders_append_only (venue : String → Option VenueOrder)
    (now : Int) (positions : List PositionRow) (db : List PriceOrder) :
    ∃ extra, syncPriceOrders venue now positions db = db ++ extra := by
  induction positions generalizing db with
  | nil => exact ⟨[], by simp [syncPriceOrders]⟩
  | cons p rest ih =>
    obtain ⟨e1, h1⟩ := syncPosition_append venue now p db
    obtain ⟨e2, h2⟩ := ih (db ++ e1)
    refine ⟨e1 ++ e2, ?_⟩
    unfold syncPriceOrders at h2 ⊢
    rw [List.foldl_cons, h1, h2, List.append_assoc]

/-- A protective leg needs no work: either its guard fails, or its row is
already in the ledger, or the venue lookup for it fails. -/
def legDone (venue : String → Option VenueOrder) (legId : Option String)
    (price : Option Rat) (db : List PriceOrder) : Prop :=
  match legId, price with
  | some oid, some pr =>
    oid = "" ∨ pr = 0 ∨ db.any (fun r => r.order_id == oid) = true ∨
      venue oid = none
  | _, _ => True

theorem legDone_append (venue : String → Option VenueOrder)
    (legId : Option String) (price : Option Rat) (db extra : List PriceOrder)
    (h : legDone venue legId price db) :
    legDone venue legId price (db ++ extra) := by
  cases legId with
  | none => trivial
  | some oid =>
    cases price with
    | none => trivial
    | some pr =>
      rcases h with h | h | h | h
      · exact Or.inl h
      · exact Or.inr (Or.inl h)
      · refine Or.inr (Or.inr (Or.inl ?_))
        simp [List.any_append, h]
      · exact Or.inr (Or.inr (Or.inr h))

theorem syncLeg_of_legDone (venue : String → Option VenueOrder) (now : Int)
    (p : PositionRow) (legId : Option String) (price : Option Rat)
    (t : LegType) (db : List PriceOrder)
    (h : legDone venue legId price db) :
    syncLeg venue now p legId price t db = db := by
  cases legId with
  | none => simp [syncLeg]
  | some oid =>
    cases price with
    | none => simp [syncLeg]
    | some pr =>
      by_cases h0 : oid = "" ∨ pr = 0
      · simp [syncLeg, h0]
      · by_cases hex : db.any (fun r => r.order_id == oid)
        · simp [syncLeg, h0, hex, truthyStr, syncedPositionOrderId]
        · have hv : venue oid = none := by
            rcases h with h | h | h | h
            · exact absurd (Or.inl h) h0
            · exact absurd (Or.inr h) h0
            · exact absurd h (by simpa using hex)
            · exact h
          simp [syncLeg, h0, hex, hv]

theorem syncLeg_establishes (venue : String → Option VenueOrder) (now : Int)
    (p : PositionRow) (legId : Option String) (price : Option Rat)
    (t : LegType) (db : List PriceOrder) :
    legDone venue legId price (syncLeg venue now p legId price t db) := by
  cases legId with
  | none => trivial
  | some oid =>
    cases price with
    | none => trivial
    | some pr =>
      by_cases h0 : oid = "" ∨ pr = 0
      · rcases h0 with h0 | h0
        · exact Or.inl h0
        · exact Or.inr (Or.inl h0)
      · by_cases hex : db.any (fun r => r.order_id == oid)
        · refine Or.inr (Or.inr (Or.inl ?_))
          simp [syncLeg, h0, hex, truthyStr, syncedPositionOrderId]
        · cases hv : venue oid with
          | some od =>
            refine Or.inr (Or.inr (Or.inl ?_))
            simp [syncLeg, h0, hex, hv, List.any_append]
          | none => exact Or.inr (Or.inr (Or.inr hv))

/-- Both legs of a position need no reconciliation work. -/
def posDone (venue : String → Option VenueOrder) (p : PositionRow)
    (db : List PriceOrder) : Prop :=
  legDone venue p.sl_order_id p.stop_loss db ∧
    legDone venue p.tp_order_id p.profit_target db

theorem posDone_append (venue : String → Option VenueOrder) (p : PositionRow)
    (db extra : List PriceOrder) (h : posDone venue p db) :
    posDone venue p (db ++ extra) :=
  ⟨legDone_append venue _ _ db extra h.1, legDone_append venue _ _ db extra h.2⟩

theorem syncPosition_of_posDone (venue : String → Option VenueOrder)
    (now : Int) (p : PositionRow) (db : List PriceOrder)
    (h : posDone venue p db) :
    syncPosition venue now db p = db := by
  unfold syncPosition
  rw [syncLeg_of_legDone venue now p _ _ _ db h.1,
    syncLeg_of_legDone venue now p _ _ _ db h.2]

theorem syncPosition_establishes (venue : String → Option VenueOrder)
    (now : Int) (p : PositionRow) (db : List PriceOrder) :
    posDone venue p (syncPosition venue now db p) := by
  constructor
  · obtain ⟨e2, h2⟩ := syncLeg_append venue now p p.tp_order_id
      p.profit_target LegType.take_profit
      (syncLeg venue now p p.sl_order_id p.stop_loss LegType.stop_loss db)
    unfold syncPosition
    rw [h2]
    exact legDone_append venue _ _ _ _ (syncLeg_establishes venue now p _ _ _ db)
  · exact syncLeg_establishes venue now p _ _ _ _

theorem posDone_syncPosition (venue : String → Option VenueOrder) (now : Int)
    (q p : PositionRow) (db : List PriceOrder) (h : posDone venue q db) :
    posDone venue q (syncPosition venue now db p) := by
  obtain ⟨e, he⟩ := syncPosition_append venue now p db
  rw [he]
  exact posDone_append venue q db e h

theorem posDone_syncPriceOrders (venue : String → Option VenueOrder)
    (now : Int) (q : PositionRow) (positions : List PositionRow)
    (db : List PriceOrder) (h : posDone venue q db) :
    posDone venue q (syncPriceOrders venue now positions db) := by
  induction positions generalizing db with
  | nil => exact h
  | cons p rest ih =>
    unfold syncPriceOrders at ih ⊢
    rw [List.foldl_cons]
    exact ih _ (posDone_syncPosition venue now q p db h)

theorem syncPriceOrders_all_done (venue : String → Option VenueOrder)
    (now : Int) (positions : List PositionRow) (db : List PriceOrder) :
    ∀ p ∈ positions, posDone venue p (syncPriceOrders venue now positions db) := by
  induction positions generalizing db with
  | nil => intro p hp; cases hp
  | cons q rest ih =>
    intro p hp
    unfold syncPriceOrders
    rw [List.foldl_cons]
    rcases List.mem_cons.mp hp with rfl | hp
    · exact posDone_syncPriceOrders venue now p rest _
        (syncPosition_establishes venue now p db)
    · exact ih (syncPosition venue now db q) p hp

theorem syncPriceOrders_of_all_done (venue : String → Option VenueOrder)
    (now : Int) (positions : List PositionRow) (db : List PriceOrder)
    (h : ∀ p ∈ positions, posDone venue p db) :
    syncPriceOrders venue now positions db = db := by
  induction positions with
  | nil => rfl
  | cons q rest ih =>
    unfold syncPriceOrders at ih ⊢
    rw [List.foldl_cons, syncPosition_of_posDone venue now q db
      (h q (List.mem_cons_self q rest))]
    exact ih (fun p hp => h p (List.mem_cons_of_mem q hp))

/-- Claim C7: reconciliation is idempotent: a second run over the same positions
against the same venue inserts nothing and leaves the ledger exactly as the
first run left it (the existence check by `order_id` precedes every
insert). -/
theorem syncPriceOrders_idempotent (venue : String → Option VenueOrder)
    (now1 now2 : Int) (positions : List PositionRow) (db : List PriceOrder) :
    syncPriceOrders venue now2 positions
        (syncPriceOrders venue now1 positions db) =
      syncPriceOrders venue now1 positions db :=
  syncPriceOrders_of_all_done venue now2 positions _
    (syncPriceOrders_all_done venue now1 positions db)

theorem cancelActive_mem {s : String} {now : Int} {db : List PriceOrder}
    {r : PriceOrder} (h : r ∈ cancelActive s now db) :
    ∃ r0 ∈ db, r0.symbol = r.symbol ∧
      r0.position_order_id = r.position_order_id ∧
      (r = r0 ∨ (r.status = OrderStatus.cancelled ∧ r.updated_at = some now)) := by
  obtain ⟨r0, hr0, hfr⟩ := List.mem_map.mp h
  by_cases hc : r0.symbol = s ∧ r0.status = OrderStatus.active
  · refine ⟨r0, hr0, ?_⟩
    rw [← hfr]
    simp [cancelActive, hc]
  · refine ⟨r0, hr0, ?_⟩
    rw [← hfr]
    simp [cancelActive, hc]

theorem cancelActive_no_active (s : String) (now : Int) (db : List PriceOrder)
    (t : LegType) :
    activeCount (cancelActive s now db) s t = 0 := by
  rw [activeCount, List.countP_eq_zero]
  intro r hr
  obtain ⟨r0, hr0, hfr⟩ := List.mem_map.mp hr
  by_cases hc : r0.symbol = s ∧ r0.status = OrderStatus.active
  · rw [← hfr]
    simp [cancelActive, hc]
  · rw [← hfr]
    simp only [cancelActive, if_neg hc, decide_eq_true_eq, not_and]
    intro h1 h2
    exact absurd ⟨h1, h2⟩ hc

theorem recover_of_invariant {s pid : String} {db : List PriceOrder}
    (hpid : pid ≠ "") (h : PairInvariant s pid db) :
    recoverPositionOrderId s db = some pid := by
  have hex : ∃ r ∈ db, (decide (r.symbol = s ∧
      r.status = OrderStatus.active ∧ r.position_order_id ≠ none)) = true := by
    have hpos : 0 < activeCount db s LegType.stop_loss := by
      rw [h.1]
      norm_num
    obtain ⟨r, hr, hp⟩ := List.countP_pos_iff.mp hpos
    simp only [decide_eq_true_eq] at hp
    refine ⟨r, hr, ?_⟩
    simp only [decide_eq_true_eq]
    refine ⟨hp.1, hp.2.1, ?_⟩
    rw [h.2.2.1 r hr hp.1]
    simp
  have hsome := List.find?_isSome.mpr hex
  obtain ⟨r0, hr0⟩ := Option.isSome_iff_exists.mp hsome
  have hp0 := List.find?_some hr0
  have hm0 := List.mem_of_find?_eq_some hr0
  simp only [decide_eq_true_eq] at hp0
  have hpos0 : r0.position_order_id = some pid := h.2.2.1 r0 hm0 hp0.1
  unfold recoverPositionOrderId
  rw [hr0]
  simp [hpos0, hpid]

theorem createProtectivePair_establishes (pid s side : String)
    (slId tpId : String) (slP tpP q : Rat) (now : Int) (L0 : List PriceOrder)
    (hL0 : ∀ r ∈ L0, r.symbol ≠ s) (hsl : slId ≠ "") (htp : tpId ≠ "") :
    PairInvariant s pid (createProtectivePair pid s side (some slId)
      (some tpId) slP tpP q now L0) := by
  have hrw : createProtectivePair pid s side (some slId) (some tpId)
      slP tpP q now L0 =
      (L0 ++ [⟨slId, some pid, s, side, LegType.stop_loss, slP, 0, q,
        OrderStatus.active, now, none⟩]) ++
      [⟨tpId, some pid, s, side, LegType.take_profit, tpP, 0, q,
        OrderStatus.active, now, none⟩] := by
    simp [createProtectivePair, insertLegIf, hsl, htp]
  rw [hrw]
  have hz : ∀ t : LegType, activeCount L0 s t = 0 := by
    intro t
    rw [activeCount, List.countP_eq_zero]
    intro r hr
    simp only [decide_eq_true_eq, not_and]
    intro h1
    exact absurd h1 (hL0 r hr)
  refine ⟨?_, ?_, ?_, ?_⟩
  · rw [activeCount, List.countP_append, List.countP_append,
      ← activeCount, hz LegType.stop_loss]
    simp [List.countP_cons]
  · rw [activeCount, List.countP_append, List.countP_append,
      ← activeCount, hz LegType.take_profit]
    simp [List.countP_cons]
  · intro r hr hsym
    rcases List.mem_append.mp hr with hr | hr
    · rcases List.mem_append.mp hr with hr | hr
      · exact absurd hsym (hL0 r hr)
      · simp only [List.mem_singleton] at hr
        rw [hr]
    · simp only [List.mem_singleton] at hr
      rw [hr]
  · intro r hr hsym hst
    rcases List.mem_append.mp hr with hr | hr
    · rcases List.mem_append.mp hr with hr | hr
      · exact absurd hsym (hL0 r hr)
      · simp only [List.mem_singleton] at hr
        rw [hr] at hst
        exact absurd rfl hst
    · simp only [List.mem_singleton] at hr
      rw [hr] at hst
      exact absurd rfl hst

theorem replaceProtectivePair_preserves (s pid : String) (c : ReplaceCall)
    (db : List PriceOrder) (hpid : pid ≠ "") (hc : bothLegsSucceed c)
    (h : PairInvariant s pid db) :
    PairInvariant s pid (replaceProtectivePair s c db) := by
  obtain ⟨hslT, hslP, htpT, htpP⟩ := hc
  obtain ⟨slId, hslId⟩ : ∃ v, c.stopLossOrderId = some v := by
    cases hv : c.stopLossOrderId with
    | none => rw [hv] at hslT; exact absurd hslT (by simp [truthyStr])
    | some v => exact ⟨v, rfl⟩
  obtain ⟨tpId, htpId⟩ : ∃ v, c.takeProfitOrderId = some v := by
    cases hv : c.takeProfitOrderId with
    | none => rw [hv] at htpT; exact absurd htpT (by simp [truthyStr])
    | some v => exact ⟨v, rfl⟩
  obtain ⟨slv, hslv⟩ : ∃ v, c.stopLoss = some v := by
    cases hv : c.stopLoss with
    | none => rw [hv] at hslP; exact absurd hslP (by simp [truthyNum])
    | some v => exact ⟨v, rfl⟩
  obtain ⟨tpv, htpv⟩ : ∃ v, c.takeProfit = some v := by
    cases hv : c.takeProfit with
    | none => rw [hv] at htpP; exact absurd htpP (by simp [truthyNum])
    | some v => exact ⟨v, rfl⟩
  have hslne : ¬ (slId = "" ∨ slv = 0) := by
    rw [hslId] at hslT
    rw [hslv] at hslP
    simp only [truthyStr, decide_eq_true_eq] at hslT
    simp only [truthyNum, decide_eq_true_eq] at hslP
    rintro (h | h)
    · exact hslT h
    · exact hslP h
  have htpne : ¬ (tpId = "" ∨ tpv = 0) := by
    rw [htpId] at htpT
    rw [htpv] at htpP
    simp only [truthyStr, decide_eq_true_eq] at htpT
    simp only [truthyNum, decide_eq_true_eq] at htpP
    rintro (h | h)
    · exact htpT h
    · exact htpP h
  have hrec := recover_of_invariant hpid h
  set sideStr : String := if 0 < c.size then "long" else "short" with hside
  have hrw : replaceProtectivePair s c db =
      (cancelActive s c.now db ++ [⟨slId, some pid, s, sideStr,
        LegType.stop_loss, slv, 0, |c.size|, OrderStatus.active, c.now,
        none⟩]) ++
      [⟨tpId, some pid, s, sideStr, LegType.take_profit, tpv, 0, |c.size|,
        OrderStatus.active, c.now, none⟩] := by
    unfold replaceProtectivePair
    rw [hrec, hslId, htpId, hslv, htpv]
    simp [hslne, htpne]
  rw [hrw]
  refine ⟨?_, ?_, ?_, ?_⟩
  · rw [activeCount, List.countP_append, List.countP_append,
      ← activeCount, cancelActive_no_active]
    simp [List.countP_cons]
  · rw [activeCount, List.countP_append, List.countP_append,
      ← activeCount, cancelActive_no_active]
    simp [List.countP_cons]
  · intro r hr hsym
    rcases List.mem_append.mp hr with hr | hr
    · rcases List.mem_append.mp hr with hr | hr
      · obtain ⟨r0, hr0, hs0, hp0, _⟩ := cancelActive_mem hr
        rw [← hp0]
        exact h.2.2.1 r0 hr0 (hs0.trans hsym)
      · simp only [List.mem_singleton] at hr
        rw [hr]
    · simp only [List.mem_singleton] at hr
      rw [hr]
  · intro r hr hsym hst
    rcases List.mem_append.mp hr with hr | hr
    · rcases List.mem_append.mp hr with hr | hr
      · obtain ⟨r0, hr0, hs0, _, hcase⟩ := cancelActive_mem hr
        rcases hcase with heq | hcs
        · rw [heq] at hsym hst ⊢
          exact h.2.2.2 r0 hr0 hsym hst
        · exact ⟨hcs.1, by rw [hcs.2]; simp⟩
      · simp only [List.mem_singleton] at hr
        rw [hr] at hst
        exact absurd rfl hst
    · simp only [List.mem_singleton] at hr
      rw [hr] at hst
      exact absurd rfl hst

theorem runReplaceChain_preserves (s pid : String) (calls : List ReplaceCall)
    (db : List PriceOrder) (hpid : pid ≠ "")
    (hcalls : ∀ c ∈ calls, bothLegsSucceed c)
    (h : PairInvariant s pid db) :
    PairInvariant s pid (runReplaceChain s calls db) := by
  induction calls generalizing db with
  | nil => exact h
  | cons c rest ih =>
    unfold runReplaceChain at ih ⊢
    rw [List.foldl_cons]
    exact ih _ (fun d hd => hcalls d (List.mem_cons_of_mem c hd))
      (replaceProtectivePair_preserves s pid c db hpid
        (hcalls c (List.mem_cons_self c rest)) h)

/-- Claim C1: one `createProtectivePair` followed by any serialized chain of
`replaceProtectivePair` calls on the same symbol (every venue placement
succeeding) leaves exactly one active stop-loss row and one active
take-profit row for the symbol, every row of the position carrying the
original `positionOrderId`, and every superseded row cancelled with
`updated_at` stamped. -/
theorem protective_pair_chain_invariant (L0 : List PriceOrder)
    (s pid side slId tpId : String) (slP tpP q : Rat) (t0 : Int)
    (calls : List ReplaceCall) (hL0 : ∀ r ∈ L0, r.symbol ≠ s)
    (hpid : pid ≠ "") (hsl : slId ≠ "") (htp : tpId ≠ "")
    (hcalls : ∀ c ∈ calls, bothLegsSucceed c) :
    PairInvariant s pid (runReplaceChain s calls
      (createProtectivePair pid s side (some slId) (some tpId)
        slP tpP q t0 L0)) :=
  runReplaceChain_preserves s pid calls _ hpid hcalls
    (createProtectivePair_establishes pid s side slId tpId slP tpP q t0 L0
      hL0 hsl htp)

/-- Claim C1 witness: a concrete create followed by one replacement. -/
theorem protective_pair_chain_example :
    PairInvariant "BTC" "100"
      (runReplaceChain "BTC" [⟨some "SL2", some "TP2", some 4, some 5, 3, 10⟩]
        (createProtectivePair "100" "BTC" "long" (some "SL1") (some "TP1")
          1 2 3 0 [])) :=
  protective_pair_chain_invariant [] "BTC" "100" "long" "SL1" "TP1" 1 2 3 0
    [⟨some "SL2", some "TP2", some 4, some 5, 3, 10⟩]
    (by intro r hr; cases hr) (by decide) (by decide) (by decide)
    (by
      intro c hc
      simp only [List.mem_singleton] at hc
      subst hc
      exact ⟨by decide, by decide, by decide, by decide⟩)

theorem insertKeyAsc_perm {α : Type} (key : α → Int) (a : α) (l : List α) :
    (insertKeyAsc key a l).Perm (a :: l) := by
  induction l with
  | nil => exact List.Perm.refl [a]
  | cons b l ih =>
    unfold insertKeyAsc
    by_cases h : key b ≤ key a
    · rw [if_pos h]
      exact (List.Perm.cons b ih).trans (List.Perm.swap a b l)
    · rw [if_neg h]

theorem sortKeyAsc_perm {α : Type} (key : α → Int) (l : List α) :
    (sortKeyAsc key l).Perm l := by
  induction l with
  | nil => exact List.Perm.refl []
  | cons a l ih =>
    exact (insertKeyAsc_perm key a (sortKeyAsc key l)).trans
      (List.Perm.cons a ih)

theorem insertKeyAsc_pairwise {α : Type} (key : α → Int) (a : α) (l : List α)
    (h : l.Pairwise (fun x y => key x ≤ key y)) :
    (insertKeyAsc key a l).Pairwise (fun x y => key x ≤ key y) := by
  induction l with
  | nil => simp [insertKeyAsc]
  | cons b l ih =>
    rw [List.pairwise_cons] at h
    unfold insertKeyAsc
    by_cases hb : key b ≤ key a
    · rw [if_pos hb, List.pairwise_cons]
      constructor
      · intro c hc
        rcases List.mem_cons.mp
            ((insertKeyAsc_perm key a l).mem_iff.mp hc) with heq | hcl
        · rw [heq]
          exact hb
        · exact h.1 c hcl
      · exact ih h.2
    · rw [if_neg hb, List.pairwise_cons]
      refine ⟨?_, List.pairwise_cons.mpr h⟩
      intro c hc
      rcases List.mem_cons.mp hc with heq | hcl
      · rw [heq]
        exact le_of_lt (lt_of_not_le hb)
      · exact le_trans (le_of_lt (lt_of_not_le hb)) (h.1 c hcl)

theorem sortKeyAsc_pairwise {α : Type} (key : α → Int) (l : List α) :
    (sortKeyAsc key l).Pairwise (fun x y => key x ≤ key y) := by
  induction l with
  | nil => exact List.Pairwise.nil
  | cons a l ih => exact insertKeyAsc_pairwise key a _ ih

theorem filter_eq_singleton_of {β : Type} {l : List β} {p : β → Bool} {a : β}
    (hnd : l.Nodup) (ha : a ∈ l) (h : ∀ b ∈ l, (p b = true ↔ b = a)) :
    l.filter p = [a] := by
  induction l with
  | nil => cases ha
  | cons x xs ih =>
    rw [List.nodup_cons] at hnd
    by_cases hpx : p x = true
    · have hxa : x = a := (h x (List.mem_cons_self x xs)).mp hpx
      subst hxa
      rw [List.filter_cons_of_pos hpx]
      have hnil : xs.filter p = [] := by
        rw [List.filter_eq_nil_iff]
        intro b hb hpb
        have hbx : b = x := (h b (List.mem_cons_of_mem x hb)).mp hpb
        rw [hbx] at hb
        exact hnd.1 hb
      rw [hnil]
    · have hxa : x ≠ a := fun he => hpx ((h x (List.mem_cons_self x xs)).mpr he)
      have ha2 : a ∈ xs := by
        rcases List.mem_cons.mp ha with he | h2
        · exact absurd he.symm hxa
        · exact h2
      rw [List.filter_cons_of_neg hpx]
      exact ih hnd.2 ha2 (fun b hb => h b (List.mem_cons_of_mem x hb))

theorem deleteDupGroup_sublist {α : Type} (rid : α → Nat) (tkey : α → Int)
    (g : α → Bool) (rows : List α) :
    (deleteDupGroup rid tkey g rows).Sublist rows := by
  unfold deleteDupGroup
  cases hs : sortKeyAsc tkey (rows.filter g) with
  | nil => exact List.Sublist.refl rows
  | cons k rest =>
    cases rest with
    | nil => exact List.Sublist.refl rows
    | cons e rest2 => exact List.filter_sublist rows

theorem deleteDupGroup_filter_disjoint {α κ : Type} [BEq κ] [LawfulBEq κ]
    (rid : α → Nat) (tkey : α → Int) (gkey : α → κ) (x : κ) (rows : List α)
    (hnd : (rows.map rid).Nodup) (p2 : α → Bool)
    (hp2 : ∀ r, p2 r = true → gkey r ≠ x) :
    (deleteDupGroup rid tkey (fun r => gkey r == x) rows).filter p2 =
      rows.filter p2 := by
  unfold deleteDupGroup
  cases hs : sortKeyAsc tkey (rows.filter (fun r => gkey r == x)) with
  | nil => rfl
  | cons k rest =>
    cases rest with
    | nil => rfl
    | cons e rest2 =>
      rw [List.filter_comm]
      have : List.filter
          (fun r => decide (rid r ∉ (e :: rest2).map rid))
          (rows.filter p2) = rows.filter p2 := by
        rw [List.filter_eq_self]
        intro r hr
        rw [List.mem_filter] at hr
        simp only [decide_eq_true_eq]
        intro hmem
        obtain ⟨b, hb, hbr⟩ := List.mem_map.mp hmem
        have hbsort : b ∈ sortKeyAsc tkey
            (rows.filter (fun q => gkey q == x)) := by
          rw [hs]
          exact List.mem_cons_of_mem k hb
        have hbgrp := (sortKeyAsc_perm tkey _).mem_iff.mp hbsort
        rw [List.mem_filter] at hbgrp
        have hbx : gkey b = x := by
          have := hbgrp.2
          simpa using this
        have hbr2 : b = r :=
          List.inj_on_of_nodup_map hnd hbgrp.1 hr.1 hbr
        exact hp2 r hr.2 (by rw [← hbr2]; exact hbx)
      exact this

theorem deleteDupGroup_filter_self {α κ : Type} [BEq κ] [LawfulBEq κ]
    (rid : α → Nat) (tkey : α → Int) (gkey : α → κ) (x : κ) (rows : List α)
    (hnd : (rows.map rid).Nodup)
    (h2 : 2 ≤ (rows.filter (fun r => gkey r == x)).length) :
    ∃ keep, keep ∈ rows ∧ gkey keep = x ∧
      (∀ q ∈ rows, gkey q = x → tkey keep ≤ tkey q) ∧
      (deleteDupGroup rid tkey (fun r => gkey r == x) rows).filter
        (fun r => gkey r == x) = [keep] := by
  have hperm := sortKeyAsc_perm tkey (rows.filter (fun r => gkey r == x))
  have hpw := sortKeyAsc_pairwise tkey (rows.filter (fun r => gkey r == x))
  have hgrpnodup : (rows.filter (fun r => gkey r == x)).Nodup :=
    List.Nodup.of_map rid (List.Nodup.sublist
      (List.Sublist.map rid (List.filter_sublist rows)) hnd)
  cases hs : sortKeyAsc tkey (rows.filter (fun r => gkey r == x)) with
  | nil =>
    rw [hs] at hperm
    have := hperm.length_eq
    simp at this
    omega
  | cons k rest =>
    cases rest with
    | nil =>
      rw [hs] at hperm
      have := hperm.length_eq
      simp at this
      omega
    | cons e rest2 =>
      rw [hs] at hperm hpw
      have hknodup : (k :: e :: rest2).Nodup :=
        hperm.nodup_iff.mpr hgrpnodup
      have hkmem : k ∈ rows.filter (fun r => gkey r == x) :=
        hperm.mem_iff.mp (List.mem_cons_self k (e :: rest2))
      rw [List.mem_filter] at hkmem
      have hkx : gkey k = x := by simpa using hkmem.2
      have hkid : rid k ∉ (e :: rest2).map rid := by
        intro hmem
        obtain ⟨b, hb, hbr⟩ := List.mem_map.mp hmem
        have : k ∈ e :: rest2 := by
          have hkb : k = b := by
            refine List.inj_on_of_nodup_map
              (l := rows.filter (fun r => gkey r == x)) ?_ ?_ ?_ hbr.symm
            · exact List.Nodup.sublist
                (List.Sublist.map rid (List.filter_sublist rows)) hnd
            · rw [List.mem_filter]
              exact hkmem
            · exact hperm.mem_iff.mp (List.mem_cons_of_mem k hb)
          rw [hkb]
          exact hb
        rw [List.nodup_cons] at hknodup
        exact hknodup.1 this
      refine ⟨k, hkmem.1, hkx, ?_, ?_⟩
      · intro q hq hqx
        have hqgrp : q ∈ rows.filter (fun r => gkey r == x) := by
          rw [List.mem_filter]
          exact ⟨hq, by simpa using hqx⟩
        rcases List.mem_cons.mp (hperm.mem_iff.mpr hqgrp) with heq | htail
        · rw [heq]
        · exact (List.pairwise_cons.mp hpw).1 q htail
      · unfold deleteDupGroup
        rw [hs, List.filter_comm]
        have hsingle : (rows.filter (fun r => gkey r == x)).filter
            (fun r => decide (rid r ∉ (e :: rest2).map rid)) = [k] := by
          refine filter_eq_singleton_of hgrpnodup ?_ ?_
          · rw [List.mem_filter]
            exact hkmem
          · intro b hb
            constructor
            · intro hqb
              simp only [decide_eq_true_eq] at hqb
              rcases List.mem_cons.mp (hperm.mem_iff.mpr hb) with heq | htail
              · exact heq
              · exact absurd (List.mem_map.mpr ⟨b, htail, rfl⟩) hqb
            · intro hbk
              rw [hbk]
              simpa using hkid
        exact hsingle


theorem foldl_delGroups_sublist {α κ : Type} [BEq κ] [LawfulBEq κ]
    (rid : α → Nat) (tkey : α → Int) (gkey : α → κ) (ids : List κ)
    (rows : List α) :
    (ids.foldl (fun acc z =>
      deleteDupGroup rid tkey (fun r => gkey r == z) acc) rows).Sublist
      rows := by
  induction ids generalizing rows with
  | nil => exact List.Sublist.refl rows
  | cons z ids ih =>
    rw [List.foldl_cons]
    exact List.Sublist.trans (ih _) (deleteDupGroup_sublist rid tkey _ rows)

theorem foldl_delGroups_filter {α κ : Type} [BEq κ] [LawfulBEq κ]
    (rid : α → Nat) (tkey : α → Int) (gkey : α → κ) (ids : List κ)
    (rows : List α) (hnd : (rows.map rid).Nodup) (p2 : α → Bool) (y : κ)
    (hp2 : ∀ r, p2 r = true → gkey r = y) (hy : y ∉ ids) :
    (ids.foldl (fun acc z =>
      deleteDupGroup rid tkey (fun r => gkey r == z) acc) rows).filter p2 =
      rows.filter p2 := by
  induction ids generalizing rows with
  | nil => rfl
  | cons z ids ih =>
    rw [List.foldl_cons]
    have hzy : y ≠ z := fun he => hy (he ▸ List.mem_cons_self z ids)
    have hstep : (deleteDupGroup rid tkey (fun r => gkey r == z)
        rows).filter p2 = rows.filter p2 :=
      deleteDupGroup_filter_disjoint rid tkey gkey z rows hnd p2
        (fun r hr => by rw [hp2 r hr]; exact hzy)
    have hnd1 : ((deleteDupGroup rid tkey (fun r => gkey r == z)
        rows).map rid).Nodup :=
      List.Nodup.sublist
        (List.Sublist.map rid (deleteDupGroup_sublist rid tkey _ rows)) hnd
    rw [ih _ hnd1 (fun he => hy (List.mem_cons_of_mem z he)), hstep]

theorem foldl_delGroups_group {α κ : Type} [BEq κ] [LawfulBEq κ]
    (rid : α → Nat) (tkey : α → Int) (gkey : α → κ) (ids : List κ)
    (rows : List α) (hnd : (rows.map rid).Nodup) (hids : ids.Nodup)
    (hbig : ∀ x ∈ ids, 2 ≤ (rows.filter (fun r => gkey r == x)).length) :
    ∀ x ∈ ids, ∃ keep, keep ∈ rows ∧ gkey keep = x ∧
      (∀ q ∈ rows, gkey q = x → tkey keep ≤ tkey q) ∧
      (ids.foldl (fun acc z =>
        deleteDupGroup rid tkey (fun r => gkey r == z) acc) rows).filter
        (fun r => gkey r == x) = [keep] := by
  induction ids generalizing rows with
  | nil => intro x hx; cases hx
  | cons z ids ih =>
    intro x hx
    rw [List.nodup_cons] at hids
    have hnd1 : ((deleteDupGroup rid tkey (fun r => gkey r == z)
        rows).map rid).Nodup :=
      List.Nodup.sublist
        (List.Sublist.map rid (deleteDupGroup_sublist rid tkey _ rows)) hnd
    rcases List.mem_cons.mp hx with heq | hxin
    · subst heq
      obtain ⟨keep, hmem, hkey, hmin, hfilter⟩ :=
        deleteDupGroup_filter_self rid tkey gkey x rows hnd
          (hbig x (List.mem_cons_self x ids))
      refine ⟨keep, hmem, hkey, hmin, ?_⟩
      rw [List.foldl_cons]
      rw [foldl_delGroups_filter rid tkey gkey ids _ hnd1 _ x
        (fun r hr => by simpa using hr) hids.1]
      exact hfilter
    · have hxz : x ≠ z := fun he => hids.1 (he ▸ hxin)
      have hpres : (deleteDupGroup rid tkey (fun r => gkey r == z)
          rows).filter (fun r => gkey r == x) =
          rows.filter (fun r => gkey r == x) :=
        deleteDupGroup_filter_disjoint rid tkey gkey z rows hnd _
          (fun r hr => by
            have : gkey r = x := by simpa using hr
            rw [this]
            exact hxz)
      have hbig1 : ∀ w ∈ ids, 2 ≤ ((deleteDupGroup rid tkey
          (fun r => gkey r == z) rows).filter
          (fun r => gkey r == w)).length := by
        intro w hw
        have hwz : w ≠ z := fun he => hids.1 (he ▸ hw)
        rw [deleteDupGroup_filter_disjoint rid tkey gkey z rows hnd _
          (fun r hr => by
            have : gkey r = w := by simpa using hr
            rw [this]
            exact hwz)]
        exact hbig w (List.mem_cons_of_mem z hw)
      obtain ⟨keep, hmem1, hkey, hmin1, hfilter⟩ :=
        ih _ hnd1 hids.2 hbig1 x hxin
      refine ⟨keep,
        (deleteDupGroup_sublist rid tkey _ rows).subset hmem1, hkey, ?_, ?_⟩
      · intro q hq hqx
        have hq1 : q ∈ (deleteDupGroup rid tkey (fun r => gkey r == z)
            rows).filter (fun r => gkey r == x) := by
          rw [hpres, List.mem_filter]
          exact ⟨hq, by simpa using hqx⟩
        rw [List.mem_filter] at hq1
        exact hmin1 q hq1.1 hqx
      · rw [List.foldl_cons]
        exact hfilter

theorem closeDupOrderIds_mem_iff (ts : List TradeRow) (x : String) :
    x ∈ closeDupOrderIds ts ↔
      1 < ts.countP (fun r => r.type == "close" && r.order_id == x) := by
  unfold closeDupOrderIds
  rw [List.mem_filter]
  constructor
  · intro h
    simpa using h.2
  · intro h
    refine ⟨?_, by simpa using h⟩
    rw [List.mem_dedup]
    have hpos : 0 < ts.countP
        (fun r => r.type == "close" && r.order_id == x) := by omega
    obtain ⟨r, hr, hp⟩ := List.countP_pos_iff.mp hpos
    simp only [Bool.and_eq_true, beq_iff_eq] at hp
    rw [List.mem_map]
    refine ⟨r, ?_, hp.2⟩
    rw [List.mem_filter]
    exact ⟨hr, by simp [hp.1]⟩

theorem closeDupOrderIds_nodup (ts : List TradeRow) :
    (closeDupOrderIds ts).Nodup :=
  List.Nodup.filter _ (List.nodup_dedup _)

theorem trades_group_big (ts : List TradeRow) (x : String)
    (h : 1 < ts.countP (fun r => r.type == "close" && r.order_id == x)) :
    2 ≤ (ts.filter (fun r => r.order_id == x)).length := by
  have hm : ts.countP (fun r => r.type == "close" && r.order_id == x) ≤
      ts.countP (fun r => r.order_id == x) :=
    List.countP_mono_left (fun a _ ha => by
      simp only [Bool.and_eq_true] at ha
      exact ha.2)
  have he : ts.countP (fun r => r.order_id == x) =
      (ts.filter (fun r => r.order_id == x)).length :=
    List.countP_eq_length_filter _ _
  omega

theorem fixDuplicateTrades_spec (ts : List TradeRow)
    (hnd : (ts.map (fun r => r.id)).Nodup) :
    (∀ x, 1 < ts.countP (fun r => r.type == "close" && r.order_id == x) →
      ∃ keep, keep ∈ ts ∧ keep.order_id = x ∧
        (∀ q ∈ ts, q.order_id = x → keep.timestamp ≤ q.timestamp) ∧
        (fixDuplicateTrades ts).filter (fun r => r.order_id == x) = [keep]) ∧
    (∀ y, ¬ 1 < ts.countP (fun r => r.type == "close" && r.order_id == y) →
      (fixDuplicateTrades ts).filter (fun r => r.order_id == y) =
        ts.filter (fun r => r.order_id == y)) ∧
    closeDupOrderIds (fixDuplicateTrades ts) = [] := by
  have hbig : ∀ w ∈ closeDupOrderIds ts,
      2 ≤ (ts.filter (fun r => r.order_id == w)).length := fun w hw =>
    trades_group_big ts w ((closeDupOrderIds_mem_iff ts w).mp hw)
  have part1 : ∀ x,
      1 < ts.countP (fun r => r.type == "close" && r.order_id == x) →
      ∃ keep, keep ∈ ts ∧ keep.order_id = x ∧
        (∀ q ∈ ts, q.order_id = x → keep.timestamp ≤ q.timestamp) ∧
        (fixDuplicateTrades ts).filter (fun r => r.order_id == x) = [keep] := by
    intro x hx
    exact foldl_delGroups_group (fun r => r.id) (fun r => r.timestamp)
      (fun r => r.order_id) (closeDupOrderIds ts) ts hnd
      (closeDupOrderIds_nodup ts) hbig x
      ((closeDupOrderIds_mem_iff ts x).mpr hx)
  have part2 : ∀ y,
      ¬ 1 < ts.countP (fun r => r.type == "close" && r.order_id == y) →
      (fixDuplicateTrades ts).filter (fun r => r.order_id == y) =
        ts.filter (fun r => r.order_id == y) := by
    intro y hy
    exact foldl_delGroups_filter (fun r => r.id) (fun r => r.timestamp)
      (fun r => r.order_id) (closeDupOrderIds ts) ts hnd
      (fun r => r.order_id == y) y
      (fun r hr => by simpa using hr)
      (fun hmem => hy ((closeDupOrderIds_mem_iff ts y).mp hmem))
  have hcount : ∀ x, ¬ 1 < (fixDuplicateTrades ts).countP
      (fun r => r.type == "close" && r.order_id == x) := by
    intro x
    by_cases hx : 1 < ts.countP (fun r => r.type == "close" && r.order_id == x)
    · obtain ⟨keep, _, _, _, hfil⟩ := part1 x hx
      have hm : (fixDuplicateTrades ts).countP
          (fun r => r.type == "close" && r.order_id == x) ≤
          (fixDuplicateTrades ts).countP (fun r => r.order_id == x) :=
        List.countP_mono_left (fun a _ ha => by
          simp only [Bool.and_eq_true] at ha
          exact ha.2)
      have he : (fixDuplicateTrades ts).countP (fun r => r.order_id == x) =
          ((fixDuplicateTrades ts).filter (fun r => r.order_id == x)).length :=
        List.countP_eq_length_filter _ _
      rw [hfil] at he
      simp at he
      omega
    · have h1 : (fixDuplicateTrades ts).countP
          (fun r => (fun q => q.type == "close") r &&
            (fun q => q.order_id == x) r) =
          ts.countP (fun r => (fun q => q.type == "close") r &&
            (fun q => q.order_id == x) r) := by
        rw [← List.countP_filter, ← List.countP_filter, part2 x hx]
      simp only at h1
      rw [h1]
      exact hx
  refine ⟨part1, part2, ?_⟩
  unfold closeDupOrderIds
  rw [List.filter_eq_nil_iff]
  intro a _
  simp only [decide_eq_true_eq]
  exact hcount a

theorem dupTriggerOrderIds_mem_iff (evs : List CloseEventRow) (x : String) :
    x ∈ dupTriggerOrderIds evs ↔
      1 < evs.countP (fun r => r.trigger_order_id == some x) := by
  unfold dupTriggerOrderIds
  rw [List.mem_filter]
  constructor
  · intro h
    simpa using h.2
  · intro h
    refine ⟨?_, by simpa using h⟩
    rw [List.mem_dedup]
    have hpos : 0 < evs.countP (fun r => r.trigger_order_id == some x) := by
      omega
    obtain ⟨r, hr, hp⟩ := List.countP_pos_iff.mp hpos
    simp only [beq_iff_eq] at hp
    exact List.mem_filterMap.mpr ⟨r, hr, hp⟩

theorem dupTriggerOrderIds_nodup (evs : List CloseEventRow) :
    (dupTriggerOrderIds evs).Nodup :=
  List.Nodup.filter _ (List.nodup_dedup _)

theorem fixDuplicateCloseEvents_eq (evs : List CloseEventRow) :
    fixDuplicateCloseEvents evs =
      ((dupTriggerOrderIds evs).map some).foldl
        (fun acc k => deleteDupGroup (fun r => r.id) (fun r => r.created_at)
          (fun r => r.trigger_order_id == k) acc) evs := by
  unfold fixDuplicateCloseEvents
  rw [List.foldl_map]

theorem fixDuplicateCloseEvents_spec (evs : List CloseEventRow)
    (hnd : (evs.map (fun r => r.id)).Nodup) :
    (∀ x, 1 < evs.countP (fun r => r.trigger_order_id == some x) →
      ∃ keep, keep ∈ evs ∧ keep.trigger_order_id = some x ∧
        (∀ q ∈ evs, q.trigger_order_id = some x →
          keep.created_at ≤ q.created_at) ∧
        (fixDuplicateCloseEvents evs).filter
          (fun r => r.trigger_order_id == some x) = [keep]) ∧
    (∀ y, ¬ 1 < evs.countP (fun r => r.trigger_order_id == some y) →
      (fixDuplicateCloseEvents evs).filter
        (fun r => r.trigger_order_id == some y) =
        evs.filter (fun r => r.trigger_order_id == some y)) ∧
    dupTriggerOrderIds (fixDuplicateCloseEvents evs) = [] := by
  have hidnd : ((dupTriggerOrderIds evs).map some).Nodup :=
    List.Nodup.map (Option.some_injective String) (dupTriggerOrderIds_nodup evs)
  have hbig : ∀ k ∈ (dupTriggerOrderIds evs).map some,
      2 ≤ (evs.filter (fun r => r.trigger_order_id == k)).length := by
    intro k hk
    obtain ⟨x, hx, hxk⟩ := List.mem_map.mp hk
    have := (dupTriggerOrderIds_mem_iff evs x).mp hx
    rw [List.countP_eq_length_filter] at this
    rw [← hxk]
    omega
  have part1 : ∀ x, 1 < evs.countP (fun r => r.trigger_order_id == some x) →
      ∃ keep, keep ∈ evs ∧ keep.trigger_order_id = some x ∧
        (∀ q ∈ evs, q.trigger_order_id = some x →
          keep.created_at ≤ q.created_at) ∧
        (fixDuplicateCloseEvents evs).filter
          (fun r => r.trigger_order_id == some x) = [keep] := by
    intro x hx
    rw [fixDuplicateCloseEvents_eq]
    exact foldl_delGroups_group (fun r => r.id) (fun r => r.created_at)
      (fun r => r.trigger_order_id) ((dupTriggerOrderIds evs).map some) evs
      hnd hidnd hbig (some x)
      (List.mem_map.mpr ⟨x, (dupTriggerOrderIds_mem_iff evs x).mpr hx, rfl⟩)
  have part2 : ∀ y, ¬ 1 < evs.countP (fun r => r.trigger_order_id == some y) →
      (fixDuplicateCloseEvents evs).filter
        (fun r => r.trigger_order_id == some y) =
        evs.filter (fun r => r.trigger_order_id == some y) := by
    intro y hy
    rw [fixDuplicateCloseEvents_eq]
    refine foldl_delGroups_filter (fun r => r.id) (fun r => r.created_at)
      (fun r => r.trigger_order_id) ((dupTriggerOrderIds evs).map some) evs
      hnd (fun r => r.trigger_order_id == some y) (some y)
      (fun r hr => by simpa using hr) ?_
    intro hmem
    obtain ⟨z, hz, hzy⟩ := List.mem_map.mp hmem
    have : z = y := by simpa using hzy
    rw [this] at hz
    exact hy ((dupTriggerOrderIds_mem_iff evs y).mp hz)
  have hcount : ∀ x, ¬ 1 < (fixDuplicateCloseEvents evs).countP
      (fun r => r.trigger_order_id == some x) := by
    intro x
    by_cases hx : 1 < evs.countP (fun r => r.trigger_order_id == some x)
    · obtain ⟨keep, _, _, _, hfil⟩ := part1 x hx
      rw [List.countP_eq_length_filter, hfil]
      simp
    · rw [List.countP_eq_length_filter, part2 x hx,
        ← List.countP_eq_length_filter]
      exact hx
  refine ⟨part1, part2, ?_⟩
  unfold dupTriggerOrderIds
  rw [List.filter_eq_nil_iff]
  intro a _
  simp only [decide_eq_true_eq]
  exact hcount a

/-- Claim C8 counterexample: with no duplicated close-trade order id the script
exits before the `position_close_events` pass, so a duplicated
`trigger_order_id` group survives intact instead of being reduced to its
earliest row. -/
theorem repairDuplicates_skips_events_counterexample :
    repairDuplicates ⟨[], [⟨1, some "T", 0⟩, ⟨2, some "T", 5⟩]⟩ =
      ⟨[], [⟨1, some "T", 0⟩, ⟨2, some "T", 5⟩]⟩ ∧
    1 < ([⟨1, some "T", 0⟩, ⟨2, some "T", 5⟩] : List CloseEventRow).countP
      (fun r => r.trigger_order_id == some "T") ∧
    ((repairDuplicates
        ⟨[], [⟨1, some "T", 0⟩, ⟨2, some "T", 5⟩]⟩).closeEvents.filter
      (fun r => r.trigger_order_id == some "T")).length = 2 := by
  refine ⟨?_, by decide, ?_⟩ <;> decide

/-- Claim C8 amended: within each group of rows sharing a duplicated
close-trade order id (and, provided at least one such trade group exists,
within each group of close events sharing a duplicated trigger order id),
exactly one row of chronologically minimal timestamp is retained and all the
others are deleted, while rows whose key is not duplicated are preserved;
when no close-trade order id is duplicated, the script exits before either
deletion pass and deletes nothing, leaving any duplicated trigger-order-id
groups intact; a second run immediately afterwards finds zero close-trade
duplicate groups and deletes zero rows. -/
theorem repairDuplicates_amended (st : RepairState)
    (hndT : (st.trades.map (fun r => r.id)).Nodup)
    (hndE : (st.closeEvents.map (fun r => r.id)).Nodup) :
    (closeDupOrderIds st.trades = [] → repairDuplicates st = st) ∧
    (∀ x, 1 < st.trades.countP
        (fun r => r.type == "close" && r.order_id == x) →
      ∃ keep, keep ∈ st.trades ∧ keep.order_id = x ∧
        (∀ q ∈ st.trades, q.order_id = x → keep.timestamp ≤ q.timestamp) ∧
        (repairDuplicates st).trades.filter (fun r => r.order_id == x) =
          [keep]) ∧
    (∀ y, ¬ 1 < st.trades.countP
        (fun r => r.type == "close" && r.order_id == y) →
      (repairDuplicates st).trades.filter (fun r => r.order_id == y) =
        st.trades.filter (fun r => r.order_id == y)) ∧
    (closeDupOrderIds st.trades ≠ [] →
      ∀ x, 1 < st.closeEvents.countP
          (fun r => r.trigger_order_id == some x) →
        ∃ keep, keep ∈ st.closeEvents ∧ keep.trigger_order_id = some x ∧
          (∀ q ∈ st.closeEvents, q.trigger_order_id = some x →
            keep.created_at ≤ q.created_at) ∧
          (repairDuplicates st).closeEvents.filter
            (fun r => r.trigger_order_id == some x) = [keep]) ∧
    (∀ y, ¬ 1 < st.closeEvents.countP
        (fun r => r.trigger_order_id == some y) →
      (repairDuplicates st).closeEvents.filter
        (fun r => r.trigger_order_id == some y) =
        st.closeEvents.filter (fun r => r.trigger_order_id == some y)) ∧
    repairDuplicates (repairDuplicates st) = repairDuplicates st := by
  obtain ⟨pt1, pt2, pt3⟩ := fixDuplicateTrades_spec st.trades hndT
  obtain ⟨pe1, pe2, _⟩ := fixDuplicateCloseEvents_spec st.closeEvents hndE
  refine ⟨?_, ?_, ?_, ?_, ?_, ?_⟩
  · intro hC
    unfold repairDuplicates
    rw [if_pos hC]
  · intro x hx
    have hC : closeDupOrderIds st.trades ≠ [] := by
      intro he
      have := (closeDupOrderIds_mem_iff st.trades x).mpr hx
      rw [he] at this
      cases this
    obtain ⟨keep, hmem, hkey, hmin, hfil⟩ := pt1 x hx
    refine ⟨keep, hmem, hkey, hmin, ?_⟩
    unfold repairDuplicates
    rw [if_neg hC]
    exact hfil
  · intro y hy
    by_cases hC : closeDupOrderIds st.trades = []
    · unfold repairDuplicates
      rw [if_pos hC]
    · unfold repairDuplicates
      rw [if_neg hC]
      exact pt2 y hy
  · intro hC x hx
    obtain ⟨keep, hmem, hkey, hmin, hfil⟩ := pe1 x hx
    refine ⟨keep, hmem, hkey, hmin, ?_⟩
    unfold repairDuplicates
    rw [if_neg hC]
    exact hfil
  · intro y hy
    by_cases hC : closeDupOrderIds st.trades = []
    · unfold repairDuplicates
      rw [if_pos hC]
    · unfold repairDuplicates
      rw [if_neg hC]
      exact pe2 y hy
  · by_cases hC : closeDupOrderIds st.trades = []
    · unfold repairDuplicates
      rw [if_pos hC, if_pos hC]
    · have h1 : repairDuplicates st =
          ⟨fixDuplicateTrades st.trades,
            fixDuplicateCloseEvents st.closeEvents⟩ := by
        unfold repairDuplicates
        rw [if_neg hC]
      rw [h1]
      unfold repairDuplicates
      rw [if_pos pt3]

/-- Claim C8 witness: duplicated groups in both tables; the state reached after
one repair run is a fixed point. -/
theorem repairDuplicates_amended_example :
    repairDuplicates (repairDuplicates
      ⟨[⟨1, "A", "close", 10⟩, ⟨2, "A", "close", 5⟩],
        [⟨1, some "T", 7⟩, ⟨2, some "T", 3⟩]⟩) =
      repairDuplicates
        ⟨[⟨1, "A", "close", 10⟩, ⟨2, "A", "close", 5⟩],
          [⟨1, some "T", 7⟩, ⟨2, some "T", 3⟩]⟩ :=
  (repairDuplicates_amended
    ⟨[⟨1, "A", "close", 10⟩, ⟨2, "A", "close", 5⟩],
      [⟨1, some "T", 7⟩, ⟨2, some "T", 3⟩]⟩
    (by decide) (by decide)).2.2.2.2.2

end AutoTrading
